import Mathlib

/-!
Verification development for the markdown-pipeline engine.

Shallow embedding of the pipeline engine (src/unnamed/part_003, latest
Pipeline class; src/src/PipelineItem.ts; src/src/markdown.ts, latest
version) in Lean 4. Strings are modeled as lists of characters
(abbrev Str); external collaborators (node path library, the YAML
front-matter parser, the html-entities encode/decode pair, the markdown
renderer) are taken as parameters of the definitions that use them, as
the spec declares them out of scope.
-/

namespace MarkdownPipeline

abbrev Str := List Char

/-! ## Quiescence scheduler (Pipeline.waitAsync)

Models the pending-promise list of a pipeline family and the fixpoint
loop of waitAsync:

  async waitAsync() {
    await this._startP;
    let len = 0;
    while (this._promises.length > len) {
      len = this._promises.length;
      await Promise.all(this._promises);
    }
  }

A task is identified by a Nat; `spawn t` is the list of tasks appended
to the pending list while task `t` runs (items created or pipelines
spawned from inside a stage callback).  `WaitState.pending` is the
append-only promise list; the prefix of length `WaitState.ran` has
already settled.  `awaitRound` models one `await Promise.all(...)`:
every not-yet-settled entry of the current snapshot settles, appending
the tasks it spawns (tasks appended during the round settle in a later
round). -/

structure WaitState where
  pending : List Nat
  ran : Nat
deriving DecidableEq, Repr

def awaitRound (spawn : Nat → List Nat) (s : WaitState) : WaitState :=
  { pending := s.pending ++ (s.pending.drop s.ran).flatMap spawn
    ran := s.pending.length }

/-- The `while (this._promises.length > len)` loop of waitAsync, with
fuel for termination (the source relies on well-formed content for
termination).  Returns the state at the moment the join returns. -/
def waitAsyncLoop (spawn : Nat → List Nat) : Nat → WaitState → Nat → Option WaitState
  | 0, _, _ => none
  | fuel + 1, s, len =>
    if s.pending.length > len then
      waitAsyncLoop spawn fuel (awaitRound spawn s) s.pending.length
    else
      some s

/-- Initial state: the tasks pending when waitAsync is entered, none
settled yet; the loop starts with `len = 0`. -/
def waitAsync (spawn : Nat → List Nat) (fuel : Nat) (init : List Nat) : Option WaitState :=
  waitAsyncLoop spawn fuel ⟨init, 0⟩ 0

/-! ## TagEngine (src/src/markdown.ts, latest version)

Comment-tag markers `<!--{{ name attrs }}-->` and their substitution.
The tag-matching regex of replaceCommentTagsAsync is

  /\<\!--\{\{\s*([^\>\s]+)[^\>]*\}\}--\>/g

Since none of `\s*`, `[^\>\s]+`, `[^\>]*` can cross a `>`, a match
starting at a given position spans from `<!--{{` up to the first
following `>`, requires the four characters before that `>` to be
`}}--`, and captures as the tag name the maximal run of non-whitespace
characters after the leading whitespace of the enclosed text.  `jsWS`
approximates the JS `\s` class by its ASCII members. -/

def jsWS (c : Char) : Bool :=
  c = ' ' || c = '\t' || c = '\n' || c = '\r' || c.toNat = 11 || c.toNat = 12

def tagOpen : Str := "<!--\x7b\x7b".toList

def tagCloseBody : Str := "\x7d\x7d--".toList

/-- Anchored match of the comment-tag regex at the start of `s`; returns
the captured tag name and the length of the whole match. -/
def tagMatchAt (s : Str) : Option (Str × Nat) :=
  if tagOpen.isPrefixOf s then
    let rest := s.drop 6
    let pool := rest.takeWhile (fun c => c ≠ '>')
    if pool.length < rest.length ∧ tagCloseBody.isSuffixOf pool then
      let content := pool.take (pool.length - 4)
      let afterWS := content.dropWhile jsWS
      let name := afterWS.takeWhile (fun c => !(jsWS c))
      if name.isEmpty then none else some (name, 6 + pool.length + 1)
    else none
  else none

/-- Leftmost match of the comment-tag regex in `s`: returns the text
before the match, the captured name, the matched tag text, and the text
after the match (the successive `re.exec` calls of the source scan left
to right). -/
def findTagFrom : Str → Option (Str × Str × Str × Str)
  | [] => none
  | c :: t =>
    match tagMatchAt (c :: t) with
    | some (name, len) => some ([], name, (c :: t).take len, (c :: t).drop len)
    | none =>
      match findTagFrom t with
      | some (pre, name, tg, rest) => some (c :: pre, name, tg, rest)
      | none => none

/-! ### Attribute parsing (parseCommentTagProps)

  let re = /([^\s\"\=]+)(?:\s*\=\s*(?:([^\s\"]+)|\"([^\"]*)\"))?/g

scanned with `re.exec` over the tag body; `props[id] = token ??
(str != null ? decode(str) : id)`.  When the optional value group fails
(no `=`, or an unclosed quote, or an empty token) the match is the bare
identifier and scanning resumes right after it. -/

def idChar (c : Char) : Bool := !(jsWS c || c = '"' || c = '=')

def tokChar (c : Char) : Bool := !(jsWS c || c = '"')

def scanAttrsF (decode : Str → Str) : Nat → Str → List (Str × Str)
  | 0, _ => []
  | _ + 1, [] => []
  | fuel + 1, c :: t =>
    if !(idChar c) then scanAttrsF decode fuel t
    else
      let id := (c :: t).takeWhile idChar
      let rest0 := (c :: t).dropWhile idChar
      match rest0.dropWhile jsWS with
      | '=' :: r2raw =>
        let r2 := r2raw.dropWhile jsWS
        match r2 with
        | '"' :: r3 =>
          let strBody := r3.takeWhile (fun ch => ch ≠ '"')
          if strBody.length < r3.length then
            (id, decode strBody) :: scanAttrsF decode fuel (r3.drop (strBody.length + 1))
          else
            (id, id) :: scanAttrsF decode fuel rest0
        | _ =>
          let token := r2.takeWhile tokChar
          if token.isEmpty then
            (id, id) :: scanAttrsF decode fuel rest0
          else
            (id, token) :: scanAttrsF decode fuel (r2.drop token.length)
      | _ => (id, id) :: scanAttrsF decode fuel rest0

/-- Reading `attr.k` from the parsed attribute list: in JS the later
assignment to the same key wins. -/
def attrsGet (props : List (Str × Str)) (k : Str) : Option Str :=
  ((props.filter (fun p => p.1 == k)).getLast?).map (fun p => p.2)

/-- JS object assignment `props[id] = v`: an existing key keeps its
position and gets the new value, a new key is appended. -/
def setAttr (props : List (Str × Str)) (k v : Str) : List (Str × Str) :=
  if props.any (fun p => p.1 == k) then
    props.map (fun p => if p.1 == k then (p.1, v) else p)
  else props ++ [(k, v)]

/-- `for (let prop in props)` enumeration order of the props object
built by parseCommentTagProps. -/
def dedupAttrs (raw : List (Str × Str)) : List (Str × Str) :=
  raw.foldl (fun acc p => setAttr acc p.1 p.2) []

/-- parseCommentTagProps: `tag.slice(6, -5)`, strip the leading
`\s*\S+` tag name, then scan the attributes.  The callers of this
function always pass a full matched tag, for which the
startsWith/endsWith guard of the source never throws. -/
def propsOfTag (decode : Str → Str) (tag : Str) : List (Str × Str) :=
  let inner := (tag.drop 6).take ((tag.drop 6).length - 5)
  let afterWS := inner.dropWhile jsWS
  let body := if afterWS.isEmpty then inner else afterWS.dropWhile (fun c => !(jsWS c))
  scanAttrsF decode (body.length + 1) body

/-- The callback map of replaceCommentTagsAsync: tag name to callback;
a callback receives the parsed attributes and returns the replacement
text (the source throws on a non-string result; here the type rules
that out). -/
abbrev TagCbs := Str → Option (List (Str × Str) → Str)

/-- The scan loop of replaceCommentTagsAsync: a registered marker is
replaced by its callback result and the scan resumes after the matched
tag (the result is not rescanned); an unregistered marker is copied
unchanged (the source keeps `lastIdx` behind it so the next flush
copies it verbatim) and the scan also resumes after it.  Fuel-based
form of the `while ((match = re.exec(text)))` loop; each step consumes
at least one character, so `s.length + 1` fuel is always enough. -/
def rctF (decode : Str → Str) (cbs : TagCbs) : Nat → Str → Str
  | 0, s => s
  | fuel + 1, s =>
    match findTagFrom s with
    | none => s
    | some (pre, name, tagTxt, rest) =>
      pre ++
        (match cbs name with
          | some cb => cb (propsOfTag decode tagTxt)
          | none => tagTxt) ++
        rctF decode cbs fuel rest

def replaceCommentTags (decode : Str → Str) (cbs : TagCbs) (s : Str) : Str :=
  rctF decode cbs (s.length + 1) s

/-! ### Spec-side single-pass segmentation (for C6)

The spec describes substitution as a left-to-right single pass over a
fixed segmentation of the input text: the input splits into literal
runs and markers, each registered marker is replaced by its callback
result, everything else (literals and unregistered markers) is emitted
verbatim, and callback output is never rescanned. -/

inductive Seg where
  | lit (cs : Str)
  | tag (name : Str) (txt : Str)
deriving DecidableEq

def segsOfF : Nat → Str → List Seg
  | 0, s => [.lit s]
  | fuel + 1, s =>
    match findTagFrom s with
    | none => [.lit s]
    | some (pre, name, tg, rest) => .lit pre :: .tag name tg :: segsOfF fuel rest

def segsOf (s : Str) : List Seg := segsOfF (s.length + 1) s

def renderSeg (decode : Str → Str) (cbs : TagCbs) : Seg → Str
  | .lit cs => cs
  | .tag name txt =>
    match cbs name with
    | some cb => cb (propsOfTag decode txt)
    | none => txt

def renderSegs (decode : Str → Str) (cbs : TagCbs) (segs : List Seg) : Str :=
  (segs.map (renderSeg decode cbs)).flatten

/-! ## PipelineItem (src/src/PipelineItem.ts) -/

/-- JS `text.split("\n")`. -/
def splitOnNL : Str → List Str
  | [] => [[]]
  | c :: t =>
    match splitOnNL t with
    | [] => [[c]]
    | h :: r => if c = '\n' then [] :: h :: r else (c :: h) :: r

/-- replaceSourceTagsAsync: each source line is substituted, a
multi-line result is split on newlines and spliced in place of the
line, and the loop index jumps past the spliced-in lines so they are
not reprocessed — which is exactly a flat map of
`splitOnNL ∘ replaceCommentTags` over the line list. -/
def replaceSourceTags (decode : Str → Str) (cbs : TagCbs) (src : List Str) : List Str :=
  (src.map (fun line => splitOnNL (replaceCommentTags decode cbs line))).flatten

/-- A pipeline item as seen by the tag-replacement methods: path,
source lines, data map (string values), optional output (path, text)
and assets (input, output). -/
structure TxItem where
  path : Str
  source : List Str
  data : List (Str × Str)
  output : Option (Str × Str)
  assets : List (Str × Str)
deriving DecidableEq

/-- replaceOutputTagsAsync: `if (this.output) { this.output = { path:
this.output.path, text: await replaceCommentTagsAsync(this.output.text,
callbacks) } }`. -/
def replaceOutputTags (decode : Str → Str) (cbs : TagCbs) (item : TxItem) : TxItem :=
  match item.output with
  | none => item
  | some pt => { item with output := some (pt.1, replaceCommentTags decode cbs pt.2) }

/-! ## Built-in insert tag (Pipeline._builtinResolveTransform)

  insert: (attr) => item.data[attr.prop] || attr.default || ""

`x || y` evaluates to `y` whenever `x` is falsy (absent key or empty
string, for string-valued data). -/

def jsTruthyOr (v : Option Str) (d : Str) : Str :=
  match v with
  | some s => if s.isEmpty then d else s
  | none => d

def objGet (data : List (Str × Str)) (k : Str) : Option Str :=
  (data.find? (fun p => p.1 == k)).map (fun p => p.2)

def dataGetOpt (data : List (Str × Str)) (k : Option Str) : Option Str :=
  match k with
  | none => none
  | some key => objGet data key

def insertCb (data : List (Str × Str)) (attr : List (Str × Str)) : Str :=
  jsTruthyOr (dataGetOpt data (attrsGet attr ("prop".toList)))
    (jsTruthyOr (attrsGet attr ("default".toList)) [])

/-! ## html-attr rewrite (parseHtmlAttrTags)

  /(\<\!--\{\{html-attr [^\>]+\}\}--\>)\s*(\<\w+)/g

Group 1 is an html-attr comment tag (same first-`>` analysis as for
tagMatchAt, with a nonempty attribute part), group 2 is the start of an
HTML opening tag (`<` plus a nonempty run of word characters) separated
from the comment tag by whitespace only; the whole match is replaced by
group 2 followed by ` name="encode(value)"` for each parsed attribute
of the comment tag. -/

def wordChar (c : Char) : Bool :=
  ('a' ≤ c && c ≤ 'z') || ('A' ≤ c && c ≤ 'Z') || ('0' ≤ c && c ≤ '9') || c = '_'

def htmlAttrOpen : Str := "<!--\x7b\x7bhtml-attr ".toList

/-- Anchored match of the html-attr regex at the start of `s`: returns
(comment tag, start of the following HTML opening tag, length of the
whole match). -/
def htmlAttrMatchAt (s : Str) : Option (Str × Str × Nat) :=
  if htmlAttrOpen.isPrefixOf s then
    let rest := s.drop 16
    let pool := rest.takeWhile (fun c => c ≠ '>')
    if pool.length < rest.length ∧ tagCloseBody.isSuffixOf pool ∧ 5 ≤ pool.length then
      let tag := htmlAttrOpen ++ pool ++ ['>']
      let after := rest.drop (pool.length + 1)
      let ws := after.takeWhile jsWS
      let after2 := after.drop ws.length
      match after2 with
      | '<' :: a3 =>
        let word := a3.takeWhile wordChar
        if word.isEmpty then none
        else some (tag, '<' :: word, 16 + pool.length + 1 + ws.length + 1 + word.length)
      | _ => none
    else none
  else none

def parseHtmlAttrTagsF (decode encode : Str → Str) : Nat → Str → Str
  | 0, s => s
  | _ + 1, [] => []
  | fuel + 1, c :: t =>
    match htmlAttrMatchAt (c :: t) with
    | some (tag, htmlStart, len) =>
      let props := dedupAttrs (propsOfTag decode tag)
      let repl := htmlStart ++
        (props.map (fun p => (' ' :: p.1) ++ ('=' :: '"' :: encode p.2) ++ ['"'])).flatten
      repl ++ parseHtmlAttrTagsF decode encode fuel ((c :: t).drop len)
    | none => c :: parseHtmlAttrTagsF decode encode fuel t

/-- `s.replace(regex, ...)` with the global flag: scan left to right,
replace each match, never rescan a replacement. -/
def parseHtmlAttrTags (decode encode : Str → Str) (s : Str) : Str :=
  parseHtmlAttrTagsF decode encode (s.length + 1) s

/-! ## Per-item stage chain (Pipeline._transform, latest version)

  private async _transform(item: PipelineItem) {
    let skip = false;
    const parseAsync = async () => {
      if (item.data.partial) skip = true;
      else if (item.source.length) { item.output = { text: ..., path: ... }; }
    };
    let funcs = [...this._sourceTransforms, ...this._resolveTransforms,
      parseAsync, ...this._outputTransforms, ...this._outputResolveTransforms];
    for (let f of funcs) {
      if (item.data.inactive || skip) return;
      await f(item);
    }
  }

The item is modeled by the fields the chain consults: the truthiness
of data.inactive and of data.partial (Booleans `inactive` and
`partFlag`), the source lines, the optional output (path, text) and the
asset list.  A user transform is an arbitrary state transformer on the
item; the render entry of the chain is the parseAsync closure.  The
external markdown renderer and the output-file-name computation
(node path operations on this.outputPath, item.data.output and
item.path) are parameters. -/

structure ChainItem where
  inactive : Bool
  partFlag : Bool
  source : List Str
  output : Option (Str × Str)
  assets : List (Str × Str)
deriving DecidableEq

inductive ChainFn where
  | user (f : ChainItem → ChainItem)
  | render

/-- The parseAsync closure: sets the skip flag when data.partial is
truthy; otherwise renders nonempty source into the output object. -/
def parseStep (render : List Str → Str) (outPathOf : ChainItem → Str)
    (item : ChainItem) (skip : Bool) : ChainItem × Bool :=
  if item.partFlag then (item, true)
  else if item.source.length ≠ 0 then
    ({ item with output := some (outPathOf item, render item.source) }, skip)
  else (item, skip)

/-- The `for (let f of funcs)` loop: before every callback the loop
checks `item.data.inactive || skip` and returns immediately when it
holds. -/
def runFuncs (render : List Str → Str) (outPathOf : ChainItem → Str) :
    List ChainFn → ChainItem → Bool → ChainItem × Bool
  | [], item, skip => (item, skip)
  | f :: fs, item, skip =>
    if item.inactive || skip then (item, skip)
    else
      match f with
      | .user g => runFuncs render outPathOf fs (g item) skip
      | .render =>
        let r := parseStep render outPathOf item skip
        runFuncs render outPathOf fs r.1 r.2

/-- The whole _transform chain for one item: source transforms, resolve
transforms, the render step, output transforms, output-resolve
transforms, starting with `skip = false`. -/
def transformChainRun (render : List Str → Str) (outPathOf : ChainItem → Str)
    (src res out outres : List (ChainItem → ChainItem)) (item : ChainItem) : ChainItem :=
  (runFuncs render outPathOf
      (src.map .user ++ res.map .user ++ [.render] ++ out.map .user ++ outres.map .user)
      item false).1

/-! ## Transform registration and spawn (latest Pipeline version)

Declaration-phase operations on a pipeline family: registering a stage
transform (addSourceTransform / addResolveTransform /
addOutputTransform / addOutputResolveTransform pushes onto the
corresponding list of that pipeline only), spawning a child pipeline
(the four lists of the child receive copies of the current lists of
the parent),
and adding an item (addSource / addFiles, owned by one pipeline).
Transforms are identified by numbers.  `_transform` builds the function
chain for an item from the four lists of the owning pipeline at the
moment the run of the item starts — after the start gate has opened, hence after
all declaration code has executed — so the chain applied to an item is
the final declaration-state lists of the owning pipeline
(`itemChain`). -/

inductive StageKind where
  | source
  | resolve
  | output
  | outputResolve
deriving DecidableEq

structure PlChains where
  sourceTransforms : List Nat
  resolveTransforms : List Nat
  outputTransforms : List Nat
  outputResolveTransforms : List Nat
deriving DecidableEq

def emptyChains : PlChains := ⟨[], [], [], []⟩

def stageList (st : StageKind) (p : PlChains) : List Nat :=
  match st with
  | .source => p.sourceTransforms
  | .resolve => p.resolveTransforms
  | .output => p.outputTransforms
  | .outputResolve => p.outputResolveTransforms

def pushStage (st : StageKind) (t : Nat) (p : PlChains) : PlChains :=
  match st with
  | .source => { p with sourceTransforms := p.sourceTransforms ++ [t] }
  | .resolve => { p with resolveTransforms := p.resolveTransforms ++ [t] }
  | .output => { p with outputTransforms := p.outputTransforms ++ [t] }
  | .outputResolve => { p with outputResolveTransforms := p.outputResolveTransforms ++ [t] }

inductive DeclOp where
  | addTransform (p : Nat) (st : StageKind) (t : Nat)
  | spawnFrom (p : Nat)
  | addItem (p : Nat)
deriving DecidableEq

structure DeclWorld where
  pipelines : List PlChains
  items : List Nat
deriving DecidableEq

def applyDeclOp (w : DeclWorld) : DeclOp → DeclWorld
  | .addTransform p st t =>
    { w with pipelines := w.pipelines.set p (pushStage st t (w.pipelines.getD p emptyChains)) }
  | .spawnFrom p =>
    { w with pipelines := w.pipelines ++ [w.pipelines.getD p emptyChains] }
  | .addItem p => { w with items := w.items ++ [p] }

def applyDeclOps (w : DeclWorld) (ops : List DeclOp) : DeclWorld :=
  ops.foldl applyDeclOp w

/-- The transform-id chain `_transform` builds for an item of pipeline
`p` once the run starts (the render step carries no transform id). -/
def chainOf (w : DeclWorld) (p : Nat) : List Nat :=
  (w.pipelines.getD p emptyChains).sourceTransforms ++
    (w.pipelines.getD p emptyChains).resolveTransforms ++
    (w.pipelines.getD p emptyChains).outputTransforms ++
    (w.pipelines.getD p emptyChains).outputResolveTransforms

def itemChain (w : DeclWorld) (i : Nat) : List Nat :=
  chainOf w (w.items.getD i 0)

def touchesPipeline (op : DeclOp) (c : Nat) : Bool :=
  match op with
  | .addTransform p _ _ => p == c
  | _ => false

/-! ## addSource and the shared item registry (latest Pipeline version)

State of one pipeline node with the family-shared registry: `plPath`
is this.path, `items` is this._items, `allItems` the shared _allItems
map (association list with unique keys), `promises` the length of
this._promises (completion promises are opaque here; addFiles pushes
one deferred file read per not-yet-registered file).  The node path
functions (path.join, path.dirname, path.relative) and the YAML
front-matter parser are external collaborators, passed as
parameters.  Data values are strings or string lists. -/

inductive PVal where
  | str (s : Str)
  | strs (ls : List Str)
deriving DecidableEq

structure RItem where
  path : Str
  source : List Str
  data : List (Str × PVal)
  assets : List (Str × Str)
deriving DecidableEq

structure Reg where
  plPath : Str
  items : List RItem
  allItems : List (Str × RItem)
  promises : Nat
deriving DecidableEq

def assocGet (m : List (Str × RItem)) (k : Str) : Option RItem :=
  (m.find? (fun p => p.1 == k)).map (fun p => p.2)

def pvalGet (data : List (Str × PVal)) (k : Str) : Option PVal :=
  (data.find? (fun p => p.1 == k)).map (fun p => p.2)

/-- JS object assignment `data.k = v`. -/
def pvalSet (data : List (Str × PVal)) (k : Str) (v : PVal) : List (Str × PVal) :=
  if data.any (fun p => p.1 == k) then
    data.map (fun p => if p.1 == k then (p.1, v) else p)
  else data ++ [(k, v)]

/-- JS object spread `{...a, ...b}`: the keys of `a` in order, with the
value overridden by `b` where both define the key, then the keys only
in `b`. -/
def jsMergeObj (a b : List (Str × PVal)) : List (Str × PVal) :=
  a.map (fun p => (p.1, (pvalGet b p.1).getD p.2)) ++
    b.filter (fun p => !(a.any (fun q => q.1 == p.1)))

/-- JS `text.split(/\r\n|\n\r|\r|\n/)` (splitMarkdown, first line). -/
def splitLinesJS : Str → List Str
  | [] => [[]]
  | '\r' :: '\n' :: t => [] :: splitLinesJS t
  | '\n' :: '\r' :: t => [] :: splitLinesJS t
  | '\r' :: t => [] :: splitLinesJS t
  | '\n' :: t => [] :: splitLinesJS t
  | c :: t =>
    match splitLinesJS t with
    | [] => [[c]]
    | h :: r => (c :: h) :: r

/-- `/^\-{3,}/.test(line)`: at least three leading dashes. -/
def isDashes3 (l : Str) : Bool := ("---".toList).isPrefixOf l

/-- splitMarkdown (src/src/markdown.ts, latest version): split the text
into lines, detect a YAML front-matter block delimited by dash lines,
hand the block to the external YAML parser, and drop the consumed lines
(all of them when the closing delimiter is missing).  Returns
(data, markdown, warnings). -/
def splitMarkdownM (yamlLoad : Str → List (Str × PVal) × List Str) (text : Str) :
    List (Str × PVal) × List Str × List Str :=
  let markdown := splitLinesJS text
  match markdown with
  | [] => ([], [], [])
  | l0 :: restLines =>
    if isDashes3 l0 then
      let body := restLines.takeWhile (fun l => !(isDashes3 l))
      let yamlStr := (body.map (fun l => l ++ ['\n'])).flatten
      let r := yamlLoad yamlStr
      (r.1, restLines.drop (body.length + 1), r.2)
    else ([], l0 :: restLines, [])

/-- `fileName.replace(/\.md$|\.txt$/, "")`. -/
def stripMdTxt (s : Str) : Str :=
  if (".md".toList).isSuffixOf s then s.take (s.length - 3)
  else if (".txt".toList).isSuffixOf s then s.take (s.length - 4)
  else s

/-- addFiles: for each file name, strip the markdown extension, form
the item id with path.join, skip it if already registered, otherwise
push one deferred read-and-addSource promise.  Registration itself
happens later, inside that promise; synchronously only the promise
list grows. -/
def addFilesReg (pathJoin : Str → Str → Str) : Reg → List Str → Reg
  | st, [] => st
  | st, fn :: fns =>
    if (assocGet st.allItems (pathJoin st.plPath (stripMdTxt fn))).isSome then
      addFilesReg pathJoin st fns
    else addFilesReg pathJoin { st with promises := st.promises + 1 } fns

/-- _relPath: `path.join(path.relative(this.path, path.dirname(item.path)), src)`. -/
def relPathOf (pathJoin : Str → Str → Str) (pathDirname : Str → Str)
    (pathRelative : Str → Str → Str) (plPath itemPath src : Str) : Str :=
  pathJoin (pathRelative plPath (pathDirname itemPath)) src

def dupErrMsg (itemPath : Str) : Str :=
  ("Item already exists in pipeline: ".toList) ++ itemPath

/-- addSource (latest Pipeline version): resolve the item path, throw
on a duplicate, split the markdown and front matter, attach warnings,
merge `{...itemData, ...data}`, register the new item in the items
list, the shared registry and the promise list, then handle the
`require` front-matter property through addFiles.  The error case
returns the state exactly as it was when the source throws: before any
mutation. -/
def addSource (pathJoin : Str → Str → Str) (pathDirname : Str → Str)
    (pathRelative : Str → Str → Str)
    (yamlLoad : Str → List (Str × PVal) × List Str)
    (st : Reg) (id text : Str) (itemData : List (Str × PVal))
    (assets : List (Str × Str)) : Reg × Except Str RItem :=
  let itemPath := pathJoin st.plPath id
  if (assocGet st.allItems itemPath).isSome then
    (st, Except.error (dupErrMsg itemPath))
  else
    let r := splitMarkdownM yamlLoad text
    let fmData := if r.2.2.length ≠ 0 then pvalSet r.1 ("warnings".toList) (.strs r.2.2) else r.1
    let data := jsMergeObj itemData fmData
    let item : RItem := ⟨itemPath, r.2.1, data, assets⟩
    let st1 : Reg :=
      { st with
        items := st.items ++ [item]
        allItems := st.allItems ++ [(itemPath, item)]
        promises := st.promises + 1 }
    let st2 :=
      match pvalGet data ("require".toList) with
      | some (.str s) =>
        if s.isEmpty then st1
        else addFilesReg pathJoin st1
          [relPathOf pathJoin pathDirname pathRelative st1.plPath itemPath s]
      | some (.strs ls) =>
        addFilesReg pathJoin st1
          (ls.map (fun s => relPathOf pathJoin pathDirname pathRelative st1.plPath itemPath s))
      | none => st1
    (st2, Except.ok item)

/-! ## Theorems -/

theorem waitAsyncLoop_invariant (spawn : Nat → List Nat) :
    ∀ (fuel : Nat) (s : WaitState) (len : Nat), len = s.ran → s.ran ≤ s.pending.length →
    ∀ s', waitAsyncLoop spawn fuel s len = some s' →
      s'.ran = s'.pending.length ∧ s.pending <+: s'.pending := by
  intro fuel
  induction fuel with
  | zero => intro s len _ _ s' h; simp [waitAsyncLoop] at h
  | succ n ih =>
    intro s len hlen hle s' h
    rw [waitAsyncLoop] at h
    by_cases hgt : s.pending.length > len
    · rw [if_pos hgt] at h
      have hstep := ih (awaitRound spawn s) s.pending.length rfl
        (by simp [awaitRound]) s' h
      refine ⟨hstep.1, ?_⟩
      exact List.prefix_append _ _ |>.trans hstep.2
    · rw [if_neg hgt] at h
      cases h
      have : s.pending.length ≤ len := Nat.le_of_not_lt hgt
      exact ⟨Nat.le_antisymm hle (hlen ▸ this), List.prefix_refl _⟩

/-- C1: the waitAsync join loop of the pipeline returns only once an await
round saw no growth of the pending-promise list: at the state in which the
join returns, every entry of the pending list — including every entry
appended by tasks that ran during earlier await rounds — has itself been
awaited (`ran` covers the whole list), and the pending list is an
append-only extension of the list that was pending when the join was
entered. -/
theorem c1_waitAsync_quiescence (spawn : Nat → List Nat) (fuel : Nat)
    (init : List Nat) (s' : WaitState) (h : waitAsync spawn fuel init = some s') :
    s'.ran = s'.pending.length ∧ init <+: s'.pending := by
  have := waitAsyncLoop_invariant spawn fuel ⟨init, 0⟩ 0 rfl (Nat.zero_le _) s' h
  exact ⟨this.1, this.2⟩

/-- Witness for C1: a concrete run in which task 0 spawns task 1 during the
first await round and task 1 spawns task 2 during the second; the join
needs four rounds and returns with all three tasks awaited. -/
theorem c1_waitAsync_quiescence_witness :
    (waitAsync (fun t => if t = 0 then [1] else if t = 1 then [2] else [])
        10 [0] = some ⟨[0, 1, 2], 3⟩) ∧
    WaitState.ran ⟨[0, 1, 2], 3⟩ = List.length (WaitState.pending ⟨[0, 1, 2], 3⟩) ∧
    [0] <+: WaitState.pending ⟨[0, 1, 2], 3⟩ := by
  refine ⟨by decide, ?_⟩
  exact c1_waitAsync_quiescence
    (fun t => if t = 0 then [1] else if t = 1 then [2] else [])
    10 [0] ⟨[0, 1, 2], 3⟩ (by decide)

theorem tagMatchAt_pos {s nm : Str} {len : Nat} (h : tagMatchAt s = some (nm, len)) :
    1 ≤ len := by
  simp only [tagMatchAt] at h
  split at h
  · split at h
    · split at h
      · exact absurd h (by simp)
      · simp only [Option.some.injEq, Prod.mk.injEq] at h
        omega
    · exact absurd h (by simp)
  · exact absurd h (by simp)

theorem findTagFrom_rest_lt :
    ∀ (s pre name tg rest : Str), findTagFrom s = some (pre, name, tg, rest) →
      rest.length < s.length := by
  intro s
  induction s with
  | nil => intro pre name tg rest h; simp [findTagFrom] at h
  | cons c t ih =>
    intro pre name tg rest h
    rw [findTagFrom] at h
    cases htm : tagMatchAt (c :: t) with
    | some v =>
      obtain ⟨nm, len⟩ := v
      rw [htm] at h
      simp only [Option.some.injEq, Prod.mk.injEq] at h
      have hp := tagMatchAt_pos htm
      have hrest : rest = (c :: t).drop len := h.2.2.2.symm
      subst hrest
      simp only [List.length_drop, List.length_cons]
      omega
    | none =>
      rw [htm] at h
      cases hf : findTagFrom t with
      | some v4 =>
        obtain ⟨pre1, name1, tg1, rest1⟩ := v4
        rw [hf] at h
        simp only [Option.some.injEq, Prod.mk.injEq] at h
        have := ih pre1 name1 tg1 rest1 hf
        have hrest : rest = rest1 := h.2.2.2.symm
        subst hrest
        simp only [List.length_cons]
        omega
      | none => rw [hf] at h; exact absurd h (by simp)

theorem rctF_renderSegs (decode : Str → Str) (cbs : TagCbs) :
    ∀ (fuel : Nat) (s : Str), s.length < fuel →
      rctF decode cbs fuel s = renderSegs decode cbs (segsOfF fuel s) := by
  intro fuel
  induction fuel with
  | zero => intro s h; omega
  | succ n ih =>
    intro s h
    cases hf : findTagFrom s with
    | none => simp [rctF, segsOfF, hf, renderSegs, renderSeg]
    | some q =>
      obtain ⟨pre, name, tg, rest⟩ := q
      have hlt := findTagFrom_rest_lt s pre name tg rest hf
      have hr : rest.length < n := by omega
      simp [rctF, segsOfF, hf, renderSegs, renderSeg, ih rest hr]

/-- C6: comment-tag substitution is a single left-to-right pass: the
output of replaceCommentTagsAsync equals the rendering of a fixed
segmentation of the input into literal runs and markers, in which each
registered marker is replaced by its callback result (which is inserted
verbatim and never rescanned) and each marker without a registered
callback appears unchanged at its original position.  The two concrete
conjuncts demonstrate this: the callback for `x` returns the marker
`<!--{{y}}-->` whose name is itself registered, yet the result keeps it
unexpanded, and the unregistered marker `w` survives in place; while a
direct occurrence of the `y` marker is substituted. -/
theorem c6_replaceCommentTags_single_pass :
    (∀ (decode : Str → Str) (cbs : TagCbs) (s : Str),
        replaceCommentTags decode cbs s = renderSegs decode cbs (segsOf s)) ∧
    replaceCommentTags (fun s => s)
        (fun n =>
          if n = ("x".toList) then some (fun _ => ("<!--\x7b\x7by\x7d\x7d-->".toList))
          else if n = ("y".toList) then some (fun _ => ("Z".toList)) else none)
        ("a <!--\x7b\x7bx\x7d\x7d--> m <!--\x7b\x7bw\x7d\x7d--> e".toList) =
      ("a <!--\x7b\x7by\x7d\x7d--> m <!--\x7b\x7bw\x7d\x7d--> e".toList) ∧
    replaceCommentTags (fun s => s)
        (fun n =>
          if n = ("x".toList) then some (fun _ => ("<!--\x7b\x7by\x7d\x7d-->".toList))
          else if n = ("y".toList) then some (fun _ => ("Z".toList)) else none)
        ("<!--\x7b\x7by\x7d\x7d-->".toList) = ("Z".toList) := by
  refine ⟨fun decode cbs s => ?_, by decide, by decide⟩
  exact rctF_renderSegs decode cbs (s.length + 1) s (Nat.lt_succ_self _)

theorem splitOnNL_ne_nil : ∀ s : Str, splitOnNL s ≠ [] := by
  intro s
  induction s with
  | nil => simp [splitOnNL]
  | cons c t ih =>
    rw [splitOnNL]
    cases h : splitOnNL t with
    | nil => exact absurd h ih
    | cons hh tt => by_cases hc : c = '\n' <;> simp [hc]

theorem splitOnNL_no_newline :
    ∀ s : Str, (splitOnNL s).all (fun l => l.all (fun c => !(c == '\n'))) = true := by
  intro s
  induction s with
  | nil => decide
  | cons c t ih =>
    rw [splitOnNL]
    cases h : splitOnNL t with
    | nil => exact absurd h (splitOnNL_ne_nil t)
    | cons hh tt =>
      rw [h] at ih
      simp only [List.all_cons, Bool.and_eq_true] at ih
      by_cases hc : c = '\n'
      · simp [hc, ih.1, ih.2]
      · simp only [if_neg hc, List.all_cons, Bool.and_eq_true]
        exact ⟨⟨by simp [hc], ih.1⟩, ih.2⟩

/-- C7: replaceSourceTagsAsync re-splits multi-line callback results on
newlines and splices the pieces into the line list, so no stored line
ever contains a newline; and on source `["a <!--{{x}}--> b"]` with the
callback for `x` returning `"c\nd"` the resulting source is exactly
`["a c", "d b"]`. -/
theorem c7_replaceSourceTags_splices_newlines :
    (∀ (decode : Str → Str) (cbs : TagCbs) (src : List Str),
        (replaceSourceTags decode cbs src).all
          (fun l => l.all (fun c => !(c == '\n'))) = true) ∧
    replaceSourceTags (fun s => s)
        (fun n => if n = ("x".toList) then some (fun _ => ("c\nd".toList)) else none)
        [("a <!--\x7b\x7bx\x7d\x7d--> b".toList)] = [("a c".toList), ("d b".toList)] := by
  refine ⟨fun decode cbs src => ?_, by decide⟩
  rw [List.all_eq_true]
  intro l hl
  rw [replaceSourceTags, List.mem_flatten] at hl
  obtain ⟨piece, hpiece, hlp⟩ := hl
  rw [List.mem_map] at hpiece
  obtain ⟨line, _, rfl⟩ := hpiece
  have := splitOnNL_no_newline (replaceCommentTags decode cbs line)
  rw [List.all_eq_true] at this
  exact this l hlp

theorem htmlAttrMatchAt_nil : htmlAttrMatchAt [] = none := by decide

theorem parseHtmlAttrTagsF_id (decode encode : Str → Str) :
    ∀ (fuel : Nat) (s : Str), (∀ i, htmlAttrMatchAt (s.drop i) = none) →
      parseHtmlAttrTagsF decode encode fuel s = s := by
  intro fuel
  induction fuel with
  | zero => intro s _; rfl
  | succ n ih =>
    intro s hall
    cases s with
    | nil => rfl
    | cons c t =>
      have h0 := hall 0
      simp only [List.drop_zero] at h0
      rw [parseHtmlAttrTagsF, h0]
      have : ∀ i, htmlAttrMatchAt (t.drop i) = none := fun i => hall (i + 1)
      rw [ih t this]

/-- C8: the html-attr rewrite replaces an html-attr comment tag that is
followed, after only whitespace, by the start of an HTML opening tag
with that opening-tag start augmented with the attributes of the
comment tag (`<!--{{html-attr class="x"}}--><p>` yields
`<p class="x">`), and leaves the text unmodified around any html-attr
tag not so followed: a text without any adjacent pair is returned
unchanged, and in a mixed text the non-adjacent tag survives verbatim
while the adjacent one is rewritten. -/
theorem c8_parseHtmlAttrTags_adjacency :
    (∀ (decode encode : Str → Str) (s : Str),
        ((List.range (s.length + 1)).all
            (fun i => (htmlAttrMatchAt (s.drop i)).isNone)) = true →
        parseHtmlAttrTags decode encode s = s) ∧
    parseHtmlAttrTags (fun s => s) (fun s => s)
        ("<!--\x7b\x7bhtml-attr class=\"x\"\x7d\x7d--><p>hello".toList) =
      ("<p class=\"x\">hello".toList) ∧
    parseHtmlAttrTags (fun s => s) (fun s => s)
        ("<!--\x7b\x7bhtml-attr a=\"1\"\x7d\x7d-->x<!--\x7b\x7bhtml-attr b=\"2\"\x7d\x7d-->  <p>".toList) =
      ("<!--\x7b\x7bhtml-attr a=\"1\"\x7d\x7d-->x<p b=\"2\">".toList) := by
  refine ⟨fun decode encode s hall => ?_, by decide, by decide⟩
  apply parseHtmlAttrTagsF_id
  intro i
  by_cases hi : i < s.length + 1
  · rw [List.all_eq_true] at hall
    have := hall i (List.mem_range.mpr hi)
    exact Option.isNone_iff_eq_none.mp this
  · have : s.length ≤ i := by omega
    rw [List.drop_eq_nil_of_le this]
    exact htmlAttrMatchAt_nil

/-- Witness for C8: the adjacency rule applied to a concrete text in
which the html-attr tag is followed by plain text (no `<` after the
whitespace): the output is the input, unchanged. -/
theorem c8_parseHtmlAttrTags_adjacency_witness :
    parseHtmlAttrTags (fun s => s) (fun s => s)
        ("<!--\x7b\x7bhtml-attr class=\"x\"\x7d\x7d-->hello".toList) =
      ("<!--\x7b\x7bhtml-attr class=\"x\"\x7d\x7d-->hello".toList) :=
  c8_parseHtmlAttrTags_adjacency.1 (fun s => s) (fun s => s)
    ("<!--\x7b\x7bhtml-attr class=\"x\"\x7d\x7d-->hello".toList) (by decide)

/-- Counterexample for C9: the claim says the insert tag returns the
value of the named key whenever it is present in the data map of the
item.
The code evaluates `item.data[attr.prop] || attr.default || ""`, so a
present but empty (falsy) value is passed over: with data
`{p: ""}` and the tag attributes `prop="p" default="N/A"` the code
returns `"N/A"`, not the present value `""`. -/
theorem c9_insert_present_falsy_cex :
    objGet [(("p".toList), ([] : Str))] ("p".toList) = some [] ∧
    insertCb [(("p".toList), ([] : Str))]
        [(("prop".toList), ("p".toList)), (("default".toList), ("N/A".toList))] =
      ("N/A".toList) ∧
    ("N/A".toList : Str) ≠ ([] : Str) := by
  refine ⟨by decide, by decide, by decide⟩

/-- C9 (amended): the built-in insert tag returns the data value of the
key named by `prop` when that key is present with a non-empty (truthy)
value; otherwise the `default` attribute when present and non-empty;
otherwise the empty string.  In particular, insert with prop="missing"
and default="N/A" on an item whose data lacks the key returns exactly
"N/A" (final conjunct, computed from the parsed tag itself).  The
lookup is a pure function of the data map and the attributes: no
recursion, no file access. -/
theorem c9_insert_lookup :
    (∀ (data attr : List (Str × Str)) (k v : Str),
        attrsGet attr ("prop".toList) = some k → objGet data k = some v → v ≠ [] →
        insertCb data attr = v) ∧
    (∀ (data attr : List (Str × Str)) (d : Str),
        (dataGetOpt data (attrsGet attr ("prop".toList)) = none ∨
          dataGetOpt data (attrsGet attr ("prop".toList)) = some []) →
        attrsGet attr ("default".toList) = some d → d ≠ [] →
        insertCb data attr = d) ∧
    (∀ (data attr : List (Str × Str)),
        (dataGetOpt data (attrsGet attr ("prop".toList)) = none ∨
          dataGetOpt data (attrsGet attr ("prop".toList)) = some []) →
        (attrsGet attr ("default".toList) = none ∨
          attrsGet attr ("default".toList) = some []) →
        insertCb data attr = []) ∧
    insertCb []
        (propsOfTag (fun s => s) ("<!--\x7b\x7binsert prop=missing default=\"N/A\"\x7d\x7d-->".toList)) =
      ("N/A".toList) := by
  refine ⟨?_, ?_, ?_, by decide⟩
  · intro data attr k v h1 h2 hv
    rw [insertCb, h1]
    simp only [dataGetOpt, h2, jsTruthyOr]
    cases v with
    | nil => exact absurd rfl hv
    | cons a b => simp
  · intro data attr d h1 h2 hd
    rw [insertCb]
    rcases h1 with h1 | h1 <;> rw [h1, h2] <;>
      cases d with
      | nil => exact absurd rfl hd
      | cons a b => simp [jsTruthyOr]
  · intro data attr h1 h2
    rw [insertCb]
    rcases h1 with h1 | h1 <;> rcases h2 with h2 | h2 <;> rw [h1, h2] <;>
      simp [jsTruthyOr]

/-- Witness for C9: the three lookup cases at concrete inputs, each
obtained by applying the theorem. -/
theorem c9_insert_lookup_witness :
    insertCb [(("k".toList), ("v".toList))] [(("prop".toList), ("k".toList))] =
      ("v".toList) ∧
    insertCb [] [(("prop".toList), ("k".toList)), (("default".toList), ("D".toList))] =
      ("D".toList) ∧
    insertCb [] [(("prop".toList), ("k".toList))] = [] := by
  refine ⟨?_, ?_, ?_⟩
  · exact c9_insert_lookup.1 [(("k".toList), ("v".toList))]
      [(("prop".toList), ("k".toList))] ("k".toList) ("v".toList)
      (by decide) (by decide) (by decide)
  · exact c9_insert_lookup.2.1 [] [(("prop".toList), ("k".toList)), (("default".toList), ("D".toList))]
      ("D".toList) (Or.inl (by decide)) (by decide) (by decide)
  · exact c9_insert_lookup.2.2.1 [] [(("prop".toList), ("k".toList))]
      (Or.inl (by decide)) (Or.inl (by decide))

/-- C10: on an item whose output is unset, replaceOutputTagsAsync is a
complete no-op: the item is returned entirely unchanged (output stays
unset, path, source, data and assets untouched) and the supplied
callback map is never consulted (the result does not depend on it). -/
theorem c10_replaceOutputTags_noop
    (decode : Str → Str) (cbs cbs2 : TagCbs) (item : TxItem)
    (h : item.output = none) :
    replaceOutputTags decode cbs item = item ∧
    replaceOutputTags decode cbs item = replaceOutputTags decode cbs2 item := by
  constructor <;> simp [replaceOutputTags, h]

/-- Witness for C10: a concrete item without output, with two different
callback maps. -/
theorem c10_replaceOutputTags_noop_witness :
    replaceOutputTags (fun s => s)
        (fun _ => some (fun _ => ("CHANGED".toList)))
        ⟨("p".toList), [("line".toList)], [], none, []⟩ =
      ⟨("p".toList), [("line".toList)], [], none, []⟩ :=
  (c10_replaceOutputTags_noop (fun s => s)
    (fun _ => some (fun _ => ("CHANGED".toList))) (fun _ => none)
    ⟨("p".toList), [("line".toList)], [], none, []⟩ rfl).1

theorem runFuncs_cons (render : List Str → Str) (outPathOf : ChainItem → Str)
    (f : ChainFn) (fs : List ChainFn) (item : ChainItem) (skip : Bool) :
    runFuncs render outPathOf (f :: fs) item skip =
      if item.inactive || skip then (item, skip)
      else
        match f with
        | .user g => runFuncs render outPathOf fs (g item) skip
        | .render =>
          runFuncs render outPathOf fs (parseStep render outPathOf item skip).1
            (parseStep render outPathOf item skip).2 := rfl

theorem runFuncs_halt (render : List Str → Str) (outPathOf : ChainItem → Str)
    (fs : List ChainFn) (item : ChainItem) (skip : Bool)
    (h : (item.inactive || skip) = true) :
    runFuncs render outPathOf fs item skip = (item, skip) := by
  cases fs with
  | nil => rfl
  | cons f fs => rw [runFuncs_cons, if_pos h]

theorem runFuncs_append (render : List Str → Str) (outPathOf : ChainItem → Str) :
    ∀ (xs ys : List ChainFn) (item : ChainItem) (skip : Bool),
      runFuncs render outPathOf (xs ++ ys) item skip =
        runFuncs render outPathOf ys (runFuncs render outPathOf xs item skip).1
          (runFuncs render outPathOf xs item skip).2 := by
  intro xs
  induction xs with
  | nil => intro ys item skip; rfl
  | cons f fs ih =>
    intro ys item skip
    simp only [List.cons_append, runFuncs_cons]
    by_cases h : (item.inactive || skip) = true
    · simp only [if_pos h]
      exact (runFuncs_halt render outPathOf ys item skip h).symm
    · simp only [if_neg h]
      rcases f with g | _
      · exact ih ys (g item) skip
      · exact ih ys _ _

theorem parseStep_partFlag (render : List Str → Str) (outPathOf : ChainItem → Str)
    (item : ChainItem) (skip : Bool) (h : item.partFlag = true) :
    parseStep render outPathOf item skip = (item, true) := by
  rw [parseStep, if_pos h]

/-- C2: in the _transform chain, item.data.inactive is checked before
every remaining stage callback, and when it is truthy the loop returns
at once: the item leaves the chain exactly as it was at that check (no
output and no assets beyond those already attached, no further callback
runs).  And when item.data.partial is truthy at the render step, the
render sets no output and flips the skip flag, so all output and
output-resolve callbacks are skipped and the whole run returns the item
exactly as the resolve stage left it. -/
theorem c2_stage_chain_short_circuit :
    (∀ (render : List Str → Str) (outPathOf : ChainItem → Str) (fs : List ChainFn)
        (item : ChainItem) (skip : Bool), item.inactive = true →
        runFuncs render outPathOf fs item skip = (item, skip)) ∧
    (∀ (render : List Str → Str) (outPathOf : ChainItem → Str)
        (src res out outres : List (ChainItem → ChainItem)) (item i : ChainItem),
        runFuncs render outPathOf (src.map .user ++ res.map .user) item false = (i, false) →
        i.inactive = false → i.partFlag = true →
        transformChainRun render outPathOf src res out outres item = i) := by
  constructor
  · intro render outPathOf fs item skip h
    exact runFuncs_halt render outPathOf fs item skip (by rw [h]; rfl)
  · intro render outPathOf src res out outres item i hpre hin hpart
    unfold transformChainRun
    have hsplit :
        src.map ChainFn.user ++ res.map ChainFn.user ++ [ChainFn.render] ++
            out.map ChainFn.user ++ outres.map ChainFn.user =
          (src.map ChainFn.user ++ res.map ChainFn.user) ++
            (ChainFn.render :: (out.map ChainFn.user ++ outres.map ChainFn.user)) := by
      simp [List.append_assoc]
    rw [hsplit, runFuncs_append, hpre, runFuncs_cons]
    rw [if_neg (by simp [hin])]
    rw [parseStep_partFlag render outPathOf i false hpart]
    rw [runFuncs_halt render outPathOf _ i true (by simp)]

/-- Witness for C2: an inactive item passes through a nonempty chain
untouched; and an item whose source transform sets data.partial comes
out of the whole chain exactly as that transform left it — the render
step and the output transform (which would set data.inactive) never
run. -/
theorem c2_stage_chain_short_circuit_witness :
    runFuncs (fun _ => ("H".toList)) (fun _ => ("o".toList))
        [ChainFn.user (fun it => { it with source := [] }), ChainFn.render]
        ⟨true, false, [("s".toList)], none, []⟩ false =
      (⟨true, false, [("s".toList)], none, []⟩, false) ∧
    transformChainRun (fun _ => ("H".toList)) (fun _ => ("o".toList))
        [fun it => { it with partFlag := true }] []
        [fun it => { it with inactive := true }] []
        ⟨false, false, [("s".toList)], none, []⟩ =
      ⟨false, true, [("s".toList)], none, []⟩ := by
  constructor
  · exact c2_stage_chain_short_circuit.1 (fun _ => ("H".toList)) (fun _ => ("o".toList))
      [ChainFn.user (fun it => { it with source := [] }), ChainFn.render]
      ⟨true, false, [("s".toList)], none, []⟩ false rfl
  · exact c2_stage_chain_short_circuit.2 (fun _ => ("H".toList)) (fun _ => ("o".toList))
      [fun it => { it with partFlag := true }] []
      [fun it => { it with inactive := true }] []
      ⟨false, false, [("s".toList)], none, []⟩
      ⟨false, true, [("s".toList)], none, []⟩ rfl rfl rfl

theorem applyDeclOp_pipelines_length (w : DeclWorld) (op : DeclOp) :
    w.pipelines.length ≤ (applyDeclOp w op).pipelines.length := by
  cases op with
  | addTransform p st t => simp [applyDeclOp]
  | spawnFrom p => simp [applyDeclOp]
  | addItem p => simp [applyDeclOp]

theorem applyDeclOp_getD_untouched (w : DeclWorld) (op : DeclOp) (c : Nat)
    (hc : c < w.pipelines.length) (h : touchesPipeline op c = false) :
    (applyDeclOp w op).pipelines.getD c emptyChains = w.pipelines.getD c emptyChains := by
  cases op with
  | addTransform p st t =>
    simp only [touchesPipeline, beq_eq_false_iff_ne, ne_eq] at h
    simp only [applyDeclOp, List.getD_eq_getElem?_getD]
    rw [List.getElem?_set_ne h]
  | spawnFrom p =>
    simp only [applyDeclOp, List.getD_eq_getElem?_getD]
    rw [List.getElem?_append_left hc]
  | addItem p => rfl

theorem stageList_pushStage_mem (st st2 : StageKind) (t t2 : Nat) (p : PlChains)
    (h : t ∈ stageList st p) : t ∈ stageList st (pushStage st2 t2 p) := by
  cases st <;> cases st2 <;> simp [stageList, pushStage] at h ⊢ <;> simp [h]

theorem stageList_mem_chainOf (w : DeclWorld) (p : Nat) (st : StageKind) (t : Nat)
    (h : t ∈ stageList st (w.pipelines.getD p emptyChains)) : t ∈ chainOf w p := by
  cases st <;> simp [stageList] at h <;> simp [chainOf, h]

theorem applyDeclOp_stage_mem (w : DeclWorld) (op : DeclOp) (p : Nat) (st : StageKind)
    (t : Nat) (hp : p < w.pipelines.length)
    (h : t ∈ stageList st (w.pipelines.getD p emptyChains)) :
    t ∈ stageList st ((applyDeclOp w op).pipelines.getD p emptyChains) := by
  cases op with
  | addTransform q st2 t2 =>
    by_cases hq : q = p
    · subst hq
      simp only [applyDeclOp, List.getD_eq_getElem?_getD]
      rw [List.getElem?_set_self hp]
      exact stageList_pushStage_mem st st2 t t2 _
        (by rw [List.getD_eq_getElem?_getD] at h; exact h)
    · rw [applyDeclOp_getD_untouched w _ p hp (by simp [touchesPipeline, hq])]
      exact h
  | spawnFrom q =>
    rw [applyDeclOp_getD_untouched w _ p hp (by simp [touchesPipeline])]
    exact h
  | addItem q => exact h

theorem applyDeclOps_stage_mem (p : Nat) (st : StageKind) (t : Nat) :
    ∀ (ops : List DeclOp) (w : DeclWorld), p < w.pipelines.length →
      t ∈ stageList st (w.pipelines.getD p emptyChains) →
      t ∈ stageList st ((applyDeclOps w ops).pipelines.getD p emptyChains) := by
  intro ops
  induction ops with
  | nil => intro w _ h; exact h
  | cons op ops ih =>
    intro w hp h
    have hp2 : p < (applyDeclOp w op).pipelines.length :=
      Nat.lt_of_lt_of_le hp (applyDeclOp_pipelines_length w op)
    exact ih (applyDeclOp w op) hp2 (applyDeclOp_stage_mem w op p st t hp h)

/-- Counterexample for C5: the claim says transforms registered on a
pipeline after its own first add are never applied to the already-added
item.  In the code, _transform builds the chain from the current
lists of the pipeline only when the run of the item starts (after the start gate
opens, hence after all declaration code has run), so a transform
registered after the add but before the run is applied: with one
pipeline, the op sequence [addItem 0, addTransform 0 source 42] puts
transform 42 into the chain applied to the item added before the
registration.  (The sample module of the repository itself registers resolve
transforms after addFiles and relies on them being applied.) -/
theorem c5_transform_chain_capture_cex :
    42 ∈ itemChain
        (applyDeclOps ⟨[emptyChains], []⟩
          [DeclOp.addItem 0, DeclOp.addTransform 0 StageKind.source 42]) 0 := by
  decide

/-- C5 (amended): transform-chain snapshots.  (a) Registration on one
pipeline never alters the four lists of another pipeline: any
sequence of
declaration ops that contains no addTransform on pipeline `c` leaves
the lists of `c` unchanged — in particular, transforms registered on a
parent after a spawn are never added to the chain of the
already-spawned child, hence never applied to the items of the child.
(b) But the chain a pipeline applies to its own items is captured per
item only when the run starts: a transform
currently registered on pipeline `p` survives every later declaration
op and so belongs to the chain applied to every item of `p` — whether
the item was added before or after the registration. -/
theorem c5_transform_chain_amended :
    (∀ (w : DeclWorld) (ops : List DeclOp) (c : Nat),
        c < w.pipelines.length →
        (∀ op ∈ ops, touchesPipeline op c = false) →
        (applyDeclOps w ops).pipelines.getD c emptyChains =
          w.pipelines.getD c emptyChains) ∧
    (∀ (w : DeclWorld) (ops : List DeclOp) (p : Nat) (st : StageKind) (t : Nat),
        p < w.pipelines.length →
        t ∈ stageList st (w.pipelines.getD p emptyChains) →
        t ∈ chainOf (applyDeclOps w ops) p ∧
        ∀ i, (applyDeclOps w ops).items.getD i 0 = p →
          t ∈ itemChain (applyDeclOps w ops) i) := by
  constructor
  · intro w ops
    induction ops generalizing w with
    | nil => intro c _ _; rfl
    | cons op ops ih =>
      intro c hc hall
      have h1 := applyDeclOp_getD_untouched w op c hc (hall op (by simp))
      have hc2 : c < (applyDeclOp w op).pipelines.length :=
        Nat.lt_of_lt_of_le hc (applyDeclOp_pipelines_length w op)
      have h2 := ih (applyDeclOp w op) c hc2 (fun o ho => hall o (by simp [ho]))
      calc (applyDeclOps w (op :: ops)).pipelines.getD c emptyChains
          = (applyDeclOps (applyDeclOp w op) ops).pipelines.getD c emptyChains := rfl
        _ = (applyDeclOp w op).pipelines.getD c emptyChains := h2
        _ = w.pipelines.getD c emptyChains := h1
  · intro w ops p st t hp h
    have hmem := applyDeclOps_stage_mem p st t ops w hp h
    refine ⟨stageList_mem_chainOf _ p st t hmem, ?_⟩
    intro i hi
    rw [itemChain, hi]
    exact stageList_mem_chainOf _ p st t hmem

/-- Witness for C5 (amended): the parent (pipeline 0) and an
already-spawned child (pipeline 1, holding a copy of transform 7 of
the parent) — after the parent registers transform 9, the lists of
the child are unchanged, while transform 7 remains in the chain of
the item held by the child. -/
theorem c5_transform_chain_amended_witness :
    (applyDeclOps ⟨[⟨[7], [], [], []⟩, ⟨[7], [], [], []⟩], [1]⟩
          [DeclOp.addTransform 0 StageKind.source 9]).pipelines.getD 1 emptyChains =
      ⟨[7], [], [], []⟩ ∧
    7 ∈ itemChain
        (applyDeclOps ⟨[⟨[7], [], [], []⟩, ⟨[7], [], [], []⟩], [1]⟩
          [DeclOp.addTransform 0 StageKind.source 9]) 0 := by
  constructor
  · exact c5_transform_chain_amended.1 ⟨[⟨[7], [], [], []⟩, ⟨[7], [], [], []⟩], [1]⟩
      [DeclOp.addTransform 0 StageKind.source 9] 1 (by decide) (by decide)
  · exact (c5_transform_chain_amended.2 ⟨[⟨[7], [], [], []⟩, ⟨[7], [], [], []⟩], [1]⟩
      [DeclOp.addTransform 0 StageKind.source 9] 1 StageKind.source 7 (by decide)
      (by decide)).2 0 (by decide)

theorem addFilesReg_preserve (pathJoin : Str → Str → Str) :
    ∀ (fns : List Str) (st : Reg),
      (addFilesReg pathJoin st fns).allItems = st.allItems ∧
      (addFilesReg pathJoin st fns).items = st.items := by
  intro fns
  induction fns with
  | nil => intro st; exact ⟨rfl, rfl⟩
  | cons fn fns ih =>
    intro st
    rw [addFilesReg]
    by_cases h : (assocGet st.allItems (pathJoin st.plPath (stripMdTxt fn))).isSome = true
    · rw [if_pos h]; exact ih st
    · rw [if_neg h]; exact ih { st with promises := st.promises + 1 }

theorem assocGet_append_right (m : List (Str × RItem)) (k : Str) (it : RItem)
    (h : assocGet m k = none) : assocGet (m ++ [(k, it)]) k = some it := by
  unfold assocGet at h ⊢
  rw [List.find?_append]
  have hfind : m.find? (fun p => p.1 == k) = none := by
    cases hf : m.find? (fun p => p.1 == k) with
    | none => rfl
    | some v => rw [hf] at h; simp at h
  rw [hfind]
  simp [List.find?]

/-- C3: path uniqueness in addSource.  Adding an item whose resolved
path (path.join of the pipeline path and the id) is already present in
the shared registry throws, returning the state exactly as it was —
registry, item list and promise list unchanged; adding a path not yet
present succeeds, returns the new item, and registers it under that
path in the shared registry and the item list. -/
theorem c3_addSource_path_uniqueness
    (pathJoin : Str → Str → Str) (pathDirname : Str → Str)
    (pathRelative : Str → Str → Str)
    (yamlLoad : Str → List (Str × PVal) × List Str) (st : Reg) (id text : Str)
    (itemData : List (Str × PVal)) (assets : List (Str × Str)) :
    ((assocGet st.allItems (pathJoin st.plPath id)).isSome = true →
      addSource pathJoin pathDirname pathRelative yamlLoad st id text itemData assets =
        (st, Except.error (dupErrMsg (pathJoin st.plPath id)))) ∧
    (assocGet st.allItems (pathJoin st.plPath id) = none →
      ∃ item : RItem,
        (addSource pathJoin pathDirname pathRelative yamlLoad st id text itemData
            assets).2 = Except.ok item ∧
        item.path = pathJoin st.plPath id ∧
        assocGet (addSource pathJoin pathDirname pathRelative yamlLoad st id text itemData
            assets).1.allItems (pathJoin st.plPath id) = some item ∧
        item ∈ (addSource pathJoin pathDirname pathRelative yamlLoad st id text itemData
            assets).1.items) := by
  constructor
  · intro h
    simp only [addSource]
    rw [if_pos h]
  · intro h
    have h2 : ¬((assocGet st.allItems (pathJoin st.plPath id)).isSome = true) := by
      simp [h]
    simp only [addSource, if_neg h2]
    set r := splitMarkdownM yamlLoad text with hr
    set fmData :=
      if r.2.2.length ≠ 0 then pvalSet r.1 ("warnings".toList) (.strs r.2.2) else r.1
      with hfm
    set data := jsMergeObj itemData fmData with hdata
    set item : RItem := ⟨pathJoin st.plPath id, r.2.1, data, assets⟩ with hitem
    set st1 : Reg :=
      { st with
        items := st.items ++ [item]
        allItems := st.allItems ++ [(pathJoin st.plPath id, item)]
        promises := st.promises + 1 } with hst1
    have hall : ∀ st2 : Reg, st2.allItems = st1.allItems → st2.items = st1.items →
        Except.ok (ε := Str) item = Except.ok item ∧
        item.path = pathJoin st.plPath id ∧
        assocGet st2.allItems (pathJoin st.plPath id) = some item ∧
        item ∈ st2.items := by
      intro st2 ha hb
      refine ⟨rfl, rfl, ?_, ?_⟩
      · rw [ha, hst1]
        exact assocGet_append_right st.allItems (pathJoin st.plPath id) item h
      · rw [hb, hst1]
        exact List.mem_append_right st.items (by simp)
    cases hreq : pvalGet data ("require".toList) with
    | none => exact ⟨item, hall st1 rfl rfl⟩
    | some v =>
      cases v with
      | str s =>
        dsimp only
        by_cases hs : s.isEmpty = true
        · rw [if_pos hs]
          exact ⟨item, hall st1 rfl rfl⟩
        · rw [if_neg hs]
          refine ⟨item, hall _ ?_ ?_⟩
          · exact (addFilesReg_preserve pathJoin _ st1).1
          · exact (addFilesReg_preserve pathJoin _ st1).2
      | strs ls =>
        dsimp only
        refine ⟨item, hall _ ?_ ?_⟩
        · exact (addFilesReg_preserve pathJoin _ st1).1
        · exact (addFilesReg_preserve pathJoin _ st1).2

/-- Witness for C3: a duplicate add on a registry already holding path
"x" returns the duplicate error and the untouched state; a fresh add on
an empty registry succeeds and registers the item. -/
theorem c3_addSource_path_uniqueness_witness :
    addSource (fun a b => if a.isEmpty then b else a ++ '/' :: b) (fun _ => [])
        (fun _ _ => []) (fun _ => ([], []))
        ⟨[], [⟨("x".toList), [], [], []⟩], [(("x".toList), ⟨("x".toList), [], [], []⟩)], 1⟩
        ("x".toList) ("body".toList) [] [] =
      (⟨[], [⟨("x".toList), [], [], []⟩], [(("x".toList), ⟨("x".toList), [], [], []⟩)], 1⟩,
        Except.error (dupErrMsg ("x".toList))) ∧
    (∃ item : RItem,
      (addSource (fun a b => if a.isEmpty then b else a ++ '/' :: b) (fun _ => [])
          (fun _ _ => []) (fun _ => ([], [])) ⟨[], [], [], 0⟩
          ("x".toList) ("body".toList) [] []).2 = Except.ok item ∧
      item.path = (fun (a b : Str) => if a.isEmpty then b else a ++ '/' :: b) [] ("x".toList) ∧
      assocGet (addSource (fun a b => if a.isEmpty then b else a ++ '/' :: b) (fun _ => [])
          (fun _ _ => []) (fun _ => ([], [])) ⟨[], [], [], 0⟩
          ("x".toList) ("body".toList) [] []).1.allItems
        ((fun (a b : Str) => if a.isEmpty then b else a ++ '/' :: b) [] ("x".toList)) =
        some item ∧
      item ∈ (addSource (fun a b => if a.isEmpty then b else a ++ '/' :: b) (fun _ => [])
          (fun _ _ => []) (fun _ => ([], [])) ⟨[], [], [], 0⟩
          ("x".toList) ("body".toList) [] []).1.items) := by
  constructor
  · exact (c3_addSource_path_uniqueness (fun a b => if a.isEmpty then b else a ++ '/' :: b)
      (fun _ => []) (fun _ _ => []) (fun _ => ([], []))
      ⟨[], [⟨("x".toList), [], [], []⟩], [(("x".toList), ⟨("x".toList), [], [], []⟩)], 1⟩
      ("x".toList) ("body".toList) [] []).1 (by decide)
  · exact (c3_addSource_path_uniqueness (fun a b => if a.isEmpty then b else a ++ '/' :: b)
      (fun _ => []) (fun _ _ => []) (fun _ => ([], [])) ⟨[], [], [], 0⟩
      ("x".toList) ("body".toList) [] []).2 (by decide)

/-- C4 (code bug): addSource merges the caller-supplied itemData with
the parsed front matter as `data = { ...itemData, ...data }`, so on a
conflict the front-matter value wins — the opposite of the claim and of
the doc comment of the function itself ("Pipeline item data, overrides
properties from front matter").  Evaluated at the failing input:
itemData `{k: "override"}` and markdown whose front matter sets
`k: fm`, the resulting item maps `k` to the front-matter value "fm",
not to "override". -/
theorem c4_itemData_override_code_bug :
    ((addSource (fun a b => if a.isEmpty then b else a ++ '/' :: b) (fun _ => [])
          (fun _ _ => [])
          (fun s =>
            if s = ("k: fm\n".toList) then ([(("k".toList), PVal.str ("fm".toList))], [])
            else ([], []))
          ⟨[], [], [], 0⟩ ("x".toList) ("---\nk: fm\n---\nbody".toList)
          [(("k".toList), PVal.str ("override".toList))] []).2.toOption.map
        (fun it => pvalGet it.data ("k".toList))) =
      some (some (PVal.str ("fm".toList))) ∧
    PVal.str ("fm".toList) ≠ PVal.str ("override".toList) := by
  exact ⟨by decide, by decide⟩

end MarkdownPipeline
